import Mathlib

/-!
Verification development for the bmg-finance-automation repository.

The repository's two algorithmic cores are embedded here:

* the deletion-queue search/match engine (`get_rows_to_delete_logic` in
  `app/utils.py`, plus the queue manipulation in `app/pages/workspace.py`);
* the book-classification engine (`BookCategoryClassifier.segregate` in
  `app/pages/segregation.py`).

Modelling conventions:

* A spreadsheet cell is `Cell`: a string value, an integer value, or a
  missing value (`Cell.na`, modelling pandas `NaN`); a row is a `List Cell`
  and a table carries a list of column names plus its rows.
  `cellStr` models pandas `astype(str)` (with `str(NaN) = "nan"`).
* Numeric coercion (`pd.to_numeric(errors="coerce").fillna(0)`) is modelled
  over the integers: amount cells parse as optionally-signed decimal
  integer literals, anything unparseable coerces to 0.  The claims under
  study depend only on the sign/zero tests of the amounts.
* Date parsing (`pd.to_datetime(errors="coerce")`) is an external
  collaborator; it is modelled as a parameter `pdate : String → Option Nat`
  (`none` = `NaT`), and all theorems quantify over it.
* `pandas.Series.str.contains` uses `regex=True`; the pattern language is
  modelled by `reSearch`, which implements the regular-expression fragment
  actually reachable from this code base: a pattern is a sequence of
  literal characters and `.` wildcards.  Patterns that contain no
  metacharacter at all behave exactly like substring search (`sub_of_meta_free`
  below), which is the regime the specification describes.
* Python exceptions surface as `Except String`; the classifier returns
  `Except String Books`.
-/

/-! ### Cells, rows, tables -/

inductive Cell where
  | str : String → Cell
  | num : Int → Cell
  | na  : Cell
deriving DecidableEq, Repr

abbrev Row := List Cell

structure Table where
  cols : List String
  rows : List Row
deriving DecidableEq, Repr

/-- Every row of the table has exactly one cell per column (pandas
dataframes are rectangular). -/
def Rect (t : Table) : Prop := ∀ r ∈ t.rows, r.length = t.cols.length

instance : DecidablePred Rect := fun t =>
  decidable_of_iff (∀ r ∈ t.rows, r.length = t.cols.length) Iff.rfl

/-- Model of Python `str(v)` / pandas `astype(str)` on one cell:
`NaN` prints as `"nan"`, numbers print in decimal. -/
def cellStr : Cell → String
  | .str s => s
  | .num n => toString n
  | .na => "nan"

def getCell (r : Row) (i : Nat) : Cell := r.getD i .na

/-- String form of the cell in column `i` of row `r`. -/
def colStr (r : Row) (i : Nat) : String := cellStr (getCell r i)

/-! ### Character/string utilities (models of the Python string operations) -/

/-- Model of `str.lower()` (the code only relies on ASCII case folding). -/
def lowerS (s : String) : String := String.mk (s.data.map Char.toLower)

/-- Model of `str.strip()`: drop whitespace from both ends. -/
def trimChars (l : List Char) : List Char :=
  ((l.dropWhile Char.isWhitespace).reverse.dropWhile Char.isWhitespace).reverse

def trimS (s : String) : String := String.mk (trimChars s.data)

/-- Substring test on character lists: does `p` occur inside `s`? -/
def charsHasSub : List Char → List Char → Bool
  | [], p => p.isEmpty
  | c :: t, p => p.isPrefixOf (c :: t) || charsHasSub t p

/-- Model of Python `pat in s` (case-sensitive substring containment). -/
def hasSub (s pat : String) : Bool := charsHasSub s.data pat.data

/-- Case-insensitive substring containment (`pat in s.lower()` for a
lowercase `pat`, or `case=False` searches of a literal pattern). -/
def hasSubCI (s pat : String) : Bool := hasSub (lowerS s) (lowerS pat)

/-- Regular-expression metacharacters of Python `re`. -/
def isMeta (c : Char) : Bool :=
  c ∈ ['.', '^', '$', '*', '+', '?', '{', '}', '[', ']', '\\', '|', '(', ')']

/-- A pattern built only from ordinary characters (no metacharacter):
for such patterns `re.search` degenerates to substring search. -/
def metaFree (s : String) : Bool := s.data.all (fun c => !isMeta c)

/-- Match the pattern at the head of `s`: each pattern character consumes
one input character; `.` matches any character except a newline, any other
character matches itself.  This is the regex fragment reachable from the
queries this code feeds to `pandas.Series.str.contains(regex=True)`. -/
def reMatchAt : List Char → List Char → Bool
  | [], _ => true
  | _ :: _, [] => false
  | p :: pt, c :: ct =>
      (if p = '.' then c ≠ '\n' else decide (p = c)) && reMatchAt pt ct

/-- Model of `re.search(pat, s) is not None` for the fragment above. -/
def reSearchChars (pat : List Char) : List Char → Bool
  | [] => reMatchAt pat []
  | c :: t => reMatchAt pat (c :: t) || reSearchChars pat t

def reSearch (s pat : String) : Bool := reSearchChars pat.data s.data

/-! ### MatchEngine — `get_rows_to_delete_logic` (`app/utils.py`, lines 49–88) -/

/-- Step 1 of `get_rows_to_delete_logic`: the row matches if any cell's
string form matches the query (pandas `str.contains(search, case=True)`,
which is a case-sensitive **regex** search). -/
def rowMatchesQ (q : String) (r : Row) : Bool :=
  r.any (fun c => reSearch (cellStr c) q)

/-- Step 2 helper: `"total" in str(next_row.values).lower()` — the quoted,
space-separated rendering of the row means the word can only occur inside
one cell, so this is an any-cell case-insensitive substring test. -/
def rowHasTotal (r : Row) : Bool :=
  r.any (fun c => hasSubCI (cellStr c) "total")

/-- Embedding of `get_rows_to_delete_logic(df, search_term)`: empty query
gives no matches; otherwise collect the matching positions, add the
position after each match when that row mentions "total", and return the
ascending list of collected positions. -/
def get_rows_to_delete_logic (rows : List Row) (q : String) : List Nat :=
  if q = "" then []
  else
    let matched := (List.range rows.length).filter (fun i => rowMatchesQ q (rows.getD i []))
    (List.range rows.length).filter (fun i =>
      matched.contains i ||
        (decide (0 < i) && matched.contains (i - 1) && rowHasTotal (rows.getD i [])))

/-! ### DeletionQueue (`app/pages/workspace.py`) -/

/-- Positions of the original table that survive the deletion queue. -/
def keptPositions (rows : List Row) (q : Finset ℕ) : List ℕ :=
  (List.range rows.length).filter (fun i => decide (i ∉ q))

/-- `final_rows`: the table rows at positions not in the queue, in table
order (embeds `df_original.drop(queue_list, errors='ignore')`,
`app/pages/workspace.py` line 540). -/
def final_rows (rows : List Row) (q : Finset ℕ) : List Row :=
  (keptPositions rows q).map (fun i => rows.getD i [])

/-- `add_many`: `st.session_state.deletion_queue.update(matches)`
(`app/pages/workspace.py` line 464) — set union. -/
def add_many (q : Finset ℕ) (ps : Finset ℕ) : Finset ℕ := q ∪ ps

/-- Modelled from the spec: the "rescue" operation (`remove(position)`,
spec §4.2).  The deletion queue is a Python `set` in the source but no
rescue call site survives under `src/`; the spec's removal of one position
from the set is `Finset.erase`. -/
def rescue (q : Finset ℕ) (p : ℕ) : Finset ℕ := q.erase p

/-- `clear()`: `st.session_state.deletion_queue = set()` (line 523). -/
def clearQueue : Finset ℕ := ∅

/-! ### BookClassifier — column resolution (`segregation.py` lines 40–46) -/

/-- `c.lower().strip()`, the key under which a column is registered. -/
def lowKey (c : String) : String := trimS (lowerS c)

/-- Positions of the columns registered under `key` (the Python dict
comprehension keeps the last one). -/
def colMatches (cols : List String) (key : String) : List Nat :=
  (List.range cols.length).filter (fun i => decide (lowKey (cols.getD i "") = key))

def lastColMatch (cols : List String) (key : String) : Option Nat :=
  (colMatches cols key).getLast?

/-- `_get_column_name`: first candidate (lowercased) that is a registered
key wins; the returned column is the last one with that key. -/
def getColumnName (cols : List String) : List String → Option Nat
  | [] => none
  | c :: cs =>
      match lastColMatch cols (lowerS c) with
      | some i => some i
      | none => getColumnName cols cs

/-! ### Reversal filter (`clean_reversals`, lines 48–65) -/

def reversalCols (cols : List String) : List Nat :=
  [getColumnName cols ["narration"], getColumnName cols ["description"]].filterMap id

/-- Case-insensitive `(reversal of|reversed)` containment test. -/
def isReversalText (s : String) : Bool :=
  hasSubCI s "reversal of" || hasSubCI s "reversed"

def clean_reversals (t : Table) : Table :=
  let cs := reversalCols t.cols
  if cs.isEmpty then t
  else ⟨t.cols, t.rows.filter (fun r => !(cs.any (fun i => isReversalText (colStr r i))))⟩

/-! ### Column requirements (lines 78–86) and the date-column KeyError -/

def idCands : List String := ["journal id", "journal no", "id", "transaction id"]
def accCands : List String := ["account", "account title", "account code"]
def debCands : List String := ["debit", "dr"]
def creCands : List String := ["credit", "cr"]
def narrCands : List String := ["narration", "description", "memo"]

structure Ctx where
  idC : Nat
  accC : Nat
  debC : Nat
  creC : Nat
  narrC : Option Nat
  dateC : Nat
deriving DecidableEq, Repr

/-- Resolve the columns `segregate` needs.  Missing any of
identifier/account/debit/credit raises `ValueError("Missing required
columns")` (line 86).  A missing *date* column is not checked: the junk-row
cleanup (line 123) evaluates `df[date_col]` unconditionally, and with
`date_col = None` that raises `KeyError: None`.  The steps between the two
checks are pure, so the embedding surfaces both errors at resolution
time. -/
def mkCtx (cols : List String) : Except String Ctx :=
  match getColumnName cols idCands, getColumnName cols accCands,
        getColumnName cols debCands, getColumnName cols creCands with
  | some i, some a, some d, some cr =>
      match getColumnName cols ["date"] with
      | some dt => .ok ⟨i, a, d, cr, getColumnName cols narrCands, dt⟩
      | none => .error "KeyError: None"
  | _, _, _, _ => .error "Missing required columns"

/-! ### ID extraction from the Date column (lines 88–101) -/

/-- Try to match `(?i)ID\s+(\d+)` at the head of `l`: `I`/`D` (any case),
at least one whitespace, then the maximal run of digits. -/
def matchIdAt (l : List Char) : Option String :=
  match l with
  | a :: b :: t =>
      if a.toLower = 'i' && b.toLower = 'd' then
        match t with
        | c :: t2 =>
            if c.isWhitespace then
              let ds := (t2.dropWhile Char.isWhitespace).takeWhile Char.isDigit
              if ds.isEmpty then none else some (String.mk ds)
            else none
        | [] => none
      else none
  | _ => none

/-- `Series.str.extract(r'(?i)ID\s+(\d+)')`: first match in the string. -/
def extractFirstId : List Char → Option String
  | [] => none
  | c :: t =>
      match matchIdAt (c :: t) with
      | some s => some s
      | none => extractFirstId t

/-- Forward fill (`Series.ffill`) over optional values. -/
def ffillO : Option String → List (Option String) → List (Option String)
  | _, [] => []
  | last, x :: t =>
      match x with
      | some v => some v :: ffillO (some v) t
      | none => last :: ffillO last t

/-- Lines 91–101: extract `ID <digits>` from the date column, forward-fill,
and (when at least one extraction succeeded) overwrite the identifier
column with the extracted values (`combine_first` keeps the original cell
where no extraction reached). -/
def idOverwrite (dateC idC : Nat) (rows : List Row) : List Row :=
  let ext := ffillO none (rows.map (fun r => extractFirstId (colStr r dateC).data))
  if ext.all (fun e => decide (e = none)) then rows
  else
    (rows.zip ext).map (fun re =>
      match re.2 with
      | some v => re.1.set idC (.str v)
      | none => re.1)

/-! ### Identifier normalization and forward fill (lines 103–111) -/

/-- Full-match test of the (case-sensitive) blanking regex
`^(total|grand total|nan|none|\s*)$` used by `Series.replace`. -/
def blankIdVal (s : String) : Bool :=
  s = "total" || s = "grand total" || s = "nan" || s = "none" ||
    s.data.all Char.isWhitespace

/-- The identifier key a row contributes before forward-fill: its stripped
string form, blanked to `none` when it matches the regex above. -/
def idKey (idC : Nat) (r : Row) : Option String :=
  let s := trimS (colStr r idC)
  if blankIdVal s then none else some s

/-- Lines 104–111 fused: `astype(str).str.strip()`, `replace(.., pd.NA)`,
`ffill()`, `dropna(subset=[id_col])`.  Rows whose forward-filled key is
still missing are dropped; the others get their identifier cell set to the
filled key. -/
def normalizeIds (idC : Nat) (rows : List Row) : List Row :=
  (rows.zip (ffillO none (rows.map (idKey idC)))).filterMap (fun rk =>
    rk.2.map (fun v => rk.1.set idC (.str v)))

/-! ### Numeric coercion (lines 114–115) -/

def digitsToNat (l : List Char) : Nat :=
  l.foldl (fun a c => 10 * a + (c.toNat - '0'.toNat)) 0

/-- Integer fragment of `pd.to_numeric(errors="coerce")`: optional sign,
then a nonempty digit run; everything else coerces to `none` (NaN). -/
def parseIntS (s : String) : Option Int :=
  match trimChars s.data with
  | '-' :: ds =>
      if !ds.isEmpty && ds.all Char.isDigit then some (-(digitsToNat ds : Int)) else none
  | ds =>
      if !ds.isEmpty && ds.all Char.isDigit then some ((digitsToNat ds : Int)) else none

/-- Coerced numeric value of a cell, after `fillna(0)`. -/
def toNum (c : Cell) : Int :=
  match c with
  | .num n => n
  | .na => 0
  | .str s => (parseIntS s).getD 0

def coerceRow (debC creC : Nat) (r : Row) : Row :=
  (r.set debC (.num (toNum (getCell r debC)))).set creC (.num (toNum (getCell r creC)))

def coerceNum (debC creC : Nat) (rows : List Row) : List Row :=
  rows.map (coerceRow debC creC)

/-! ### Junk-row cleanup (lines 117–128) -/

/-- `is_blank`: `isna() | astype(str).str.strip().str.lower().isin(['', 'nan', 'none'])`. -/
def isBlankCell (c : Cell) : Bool :=
  match c with
  | .na => true
  | c =>
      let s := lowerS (trimS (cellStr c))
      s = "" || s = "nan" || s = "none"

def isJunkRow (c : Ctx) (r : Row) : Bool :=
  isBlankCell (getCell r c.dateC) && isBlankCell (getCell r c.accC) &&
    decide (toNum (getCell r c.debC) = 0) && decide (toNum (getCell r c.creC) = 0)

/-- The row set every bucket draws from: reversal filter, ID overwrite,
identifier normalization, numeric coercion, junk cleanup — the pipeline
prefix of `segregate` up to line 128. -/
def prepRows (c : Ctx) (rows : List Row) : List Row :=
  (coerceNum c.debC c.creC (normalizeIds c.idC (idOverwrite c.dateC c.idC rows))).filter
    (fun r => !isJunkRow c r)

def survivors (t : Table) (c : Ctx) : List Row := prepRows c (clean_reversals t).rows

/-! ### Signals and the bucket decision (lines 131–178) -/

def accText (c : Ctx) (r : Row) : String := lowerS (colStr r c.accC)

def narrText (c : Ctx) (r : Row) : String :=
  match c.narrC with
  | some i => lowerS (colStr r i)
  | none => ""

def isBank (c : Ctx) (r : Row) : Bool :=
  hasSub (accText c r) "rcbc" || hasSub (accText c r) "westpac" ||
    hasSub (narrText c r) "rcbc" || hasSub (narrText c r) "westpac"

def isAP (c : Ctx) (r : Row) : Bool :=
  hasSub (accText c r) "accounts payable" || hasSub (accText c r) "trade creditors"

def isAR (c : Ctx) (r : Row) : Bool :=
  hasSub (accText c r) "trade debtors" || hasSub (accText c r) "accounts receivable"

def debitOf (c : Ctx) (r : Row) : Int := toNum (getCell r c.debC)
def creditOf (c : Ctx) (r : Row) : Int := toNum (getCell r c.creC)

def receiptTrig (c : Ctx) (r : Row) : Bool :=
  (isBank c r && decide (0 < debitOf c r)) || (isAR c r && decide (0 < creditOf c r))

def disburseTrig (c : Ctx) (r : Row) : Bool :=
  (isBank c r && decide (0 < creditOf c r)) || (isAP c r && decide (0 < debitOf c r))

/-- The forward-filled grouping key of a row (string form of its
identifier cell). -/
def idOf (idC : Nat) (r : Row) : String := colStr r idC

def sameGroup (idC : Nat) (r x : Row) : Bool := decide (idOf idC x = idOf idC r)

/-- `Date` text ending in `- Manual`: search of `-\s*manual\s*$`,
case-insensitive. -/
def isManualStr (s : String) : Bool :=
  let l := (lowerS s).data.reverse
  let l1 := l.dropWhile Char.isWhitespace
  if ("manual".data.reverse).isPrefixOf l1 then
    match (l1.drop 6).dropWhile Char.isWhitespace with
    | c :: _ => c = '-'
    | [] => false
  else false

def isManualRow (c : Ctx) (r : Row) : Bool := isManualStr (colStr r c.dateC)

inductive Book where
  | cd | cr | gj
deriving DecidableEq, Repr

/-- `assign_book` (lines 161–168): manual rows go to the General Journal;
otherwise the group-level receipt signal is checked before the group-level
disburse signal; default General Journal. -/
def bookOf (c : Ctx) (surv : List Row) (r : Row) : Book :=
  if isManualRow c r then .gj
  else if (surv.filter (sameGroup c.idC r)).any (receiptTrig c) then .cr
  else if (surv.filter (sameGroup c.idC r)).any (disburseTrig c) then .cd
  else .gj

/-! ### Sorting and spacer insertion (lines 183–235) -/

/-- `pd.to_datetime(errors="coerce")` on one cell; NaN is NaT, strings go
through the abstract parser. -/
def parseDateCell (pdate : String → Option Nat) : Cell → Option Nat
  | .na => none
  | c => pdate (cellStr c)

/-- `__group_sort_date`: minimum parsed date over the bucket's rows with
grouping key `v` (`groupby(id_col)[..].transform('min')`, NaN-skipping). -/
def groupMinDate (pdate : String → Option Nat) (c : Ctx) (bucket : List Row)
    (v : String) : Option Nat :=
  ((bucket.filter (fun x => decide (idOf c.idC x = v))).filterMap
    (fun x => parseDateCell pdate (getCell x c.dateC))).min?

/-- Footer test `^(Total|None|Grand Total)`, `case=False` (anchored search
= case-insensitive prefix). -/
def isFooterStr (s : String) : Bool :=
  ["total", "none", "grand total"].any (fun p => p.data.isPrefixOf (lowerS s).data)

/-- `__row_rank`: 0 default, 1 where the date parses, 2 (overriding) where
the date text is a footer. -/
def rankOf (pdate : String → Option Nat) (c : Ctx) (r : Row) : Nat :=
  if isFooterStr (colStr r c.dateC) then 2
  else if (parseDateCell pdate (getCell r c.dateC)).isSome then 1
  else 0

/-- Strict lexicographic order on character lists (pandas compares
strings by code points). -/
def charsLt : List Char → List Char → Bool
  | [], [] => false
  | [], _ :: _ => true
  | _ :: _, [] => false
  | a :: as, b :: bs => decide (a < b) || (decide (a = b) && charsLt as bs)

/-- Strict order on optional group dates with NaT (`none`) sorted last
(`na_position='last'`). -/
def optDLt : Option Nat → Option Nat → Bool
  | some a, some b => decide (a < b)
  | some _, none => true
  | none, _ => false

/-- A row's sort key: group date, identifier characters, rank. -/
abbrev KeyT := Option Nat × List Char × Nat

/-- Strict lexicographic order on the (date, identifier) prefix of keys. -/
def pairLtB (p1 p2 : Option Nat × List Char) : Bool :=
  optDLt p1.1 p2.1 || (decide (p1.1 = p2.1) && charsLt p1.2 p2.2)

/-- The `sort_values(by=['__group_sort_date', id_col, '__row_rank'],
na_position='last')` comparison: lexicographic on (group date with NaT
last, identifier string, rank). -/
def keyLeB (k1 k2 : KeyT) : Bool :=
  pairLtB (k1.1, k1.2.1) (k2.1, k2.2.1) ||
    (decide (k1.1 = k2.1) && decide (k1.2.1 = k2.2.1) && decide (k1.2.2 ≤ k2.2.2))

def rowKey (pdate : String → Option Nat) (c : Ctx) (bucket : List Row) (r : Row) : KeyT :=
  (groupMinDate pdate c bucket (idOf c.idC r), (idOf c.idC r).data, rankOf pdate c r)

def keyLE (pdate : String → Option Nat) (c : Ctx) (bucket : List Row) (r1 r2 : Row) : Prop :=
  keyLeB (rowKey pdate c bucket r1) (rowKey pdate c bucket r2) = true

instance (pdate : String → Option Nat) (c : Ctx) (bucket : List Row) :
    DecidableRel (keyLE pdate c bucket) := fun a b =>
  instDecidableEqBool (keyLeB (rowKey pdate c bucket a) (rowKey pdate c bucket b)) true

/-- `Series.unique()`: values in order of first appearance. -/
def uniqueFirst (seen : List String) : List String → List String
  | [] => []
  | x :: t => if x ∈ seen then uniqueFirst seen t else x :: uniqueFirst (x :: seen) t

/-- The identifier groups of a bucket, in sorted order: sort the bucket by
`sortKey`, then for each first-appearance-unique identifier take its rows
(lines 206–224). -/
def bookGroups (pdate : String → Option Nat) (c : Ctx) (bucket : List Row) :
    List (List Row) :=
  let s := List.insertionSort (keyLE pdate c bucket) bucket
  (uniqueFirst [] (s.map (idOf c.idC))).map
    (fun v => s.filter (fun r => decide (idOf c.idC r = v)))

/-- The all-NA spacer row (`pd.DataFrame([pd.NA] * len(columns) ..)`). -/
def blankRow (n : Nat) : Row := List.replicate n Cell.na

def isBlankRow (r : Row) : Bool := r.all (fun c => decide (c = Cell.na))

def removeBlanks (rows : List Row) : List Row := rows.filter (fun r => !isBlankRow r)

/-- Groups joined with exactly one blank row between consecutive groups
and none after the last (the shape the spec describes). -/
def withSpacers (blank : Row) : List (List Row) → List Row
  | [] => []
  | [g] => g
  | g :: gs => g ++ blank :: withSpacers blank gs

/-- Lines 183–235 for one bucket: empty buckets are skipped; otherwise
sort, append a blank row after every group and drop the trailing one
(`sorted_groups[:-1]`). -/
def sortAndSpace (pdate : String → Option Nat) (c : Ctx) (ncols : Nat)
    (bucket : List Row) : List Row :=
  if bucket.isEmpty then bucket
  else ((bookGroups pdate c bucket).map (fun g => g ++ [blankRow ncols])).flatten.dropLast

structure Books where
  cd : List Row
  cr : List Row
  gj : List Row
deriving DecidableEq, Repr

/-- `BookCategoryClassifier.segregate`: reversal filter, column
resolution, the preparation pipeline, per-row bucket assignment, and the
per-bucket sort/spacer pass. -/
def segregate (pdate : String → Option Nat) (t : Table) : Except String Books :=
  (mkCtx (clean_reversals t).cols).map (fun c =>
    let surv := survivors t c
    let n := (clean_reversals t).cols.length
    { cd := sortAndSpace pdate c n (surv.filter (fun r => decide (bookOf c surv r = Book.cd)))
      cr := sortAndSpace pdate c n (surv.filter (fun r => decide (bookOf c surv r = Book.cr)))
      gj := sortAndSpace pdate c n (surv.filter (fun r => decide (bookOf c surv r = Book.gj))) })

instance : DecidableEq (Except String Books) := fun a b =>
  match a, b with
  | .error x, .error y => decidable_of_iff (x = y) (by simp)
  | .ok x, .ok y => decidable_of_iff (x = y) (by simp)
  | .error _, .ok _ => isFalse (by simp)
  | .ok _, .error _ => isFalse (by simp)

/-! ### Spec-side reference definitions -/

/-- Spec wording of the identifier blanking predicate, with a switch for
the case-insensitivity the spec asserts (`ci = true`) versus the
case-sensitive matching the code performs (`ci = false`). -/
def specBlank (ci : Bool) (s : String) : Bool :=
  let v := if ci then lowerS s else s
  v = "total" || v = "grand total" || v = "nan" || v = "none" ||
    v.data.all Char.isWhitespace

/-- Spec wording of forward-fill: the identifier assigned to row `j` is
the nearest preceding (or own) non-blank trimmed identifier. -/
def specIdAt (ci : Bool) (idC : Nat) (rows : List Row) (j : Nat) : Option String :=
  (((rows.take (j + 1)).map (fun r =>
      let s := trimS (colStr r idC)
      if specBlank ci s then none else some s)).reverse).findSome? (fun x => x)

/-- Spec wording of identifier normalization: trim, blank, fill from the
nearest preceding non-blank identifier, drop rows still blank. -/
def specNormalize (ci : Bool) (idC : Nat) (rows : List Row) : List Row :=
  (List.range rows.length).filterMap (fun j =>
    (specIdAt ci idC rows j).map (fun v => (rows.getD j []).set idC (.str v)))

/-! ### Concrete fixtures used by witnesses and counterexamples -/

/-- A date parser that parses nothing (all cells NaT). -/
def pdNone : String → Option Nat := fun _ => none

/-- A tiny concrete date parser for ordering examples. -/
def pdSmall : String → Option Nat := fun s =>
  if s = "01/01/2025" then some 1 else if s = "02/01/2025" then some 2 else none

def stdCols : List String := ["Journal ID", "Date", "Account", "Debit", "Credit"]

/-- The context `mkCtx` resolves for `stdCols`. -/
def stdCtx : Ctx := ⟨0, 2, 3, 4, none, 1⟩

def mkRow (idv datev accv : String) (deb cre : Int) : Row :=
  [Cell.str idv, Cell.str datev, Cell.str accv, Cell.num deb, Cell.num cre]

/-- Spec §8 Scenario 4: one group, a bank credit line and a bank debit
line. -/
def tC3tbl : Table :=
  ⟨stdCols, [mkRow "J1" "01/02/2025" "RCBC - Checking" 0 100,
             mkRow "J1" "01/02/2025" "RCBC - Checking" 50 0]⟩

/-- One group holding a bank-debit detail line and a manual line. -/
def tC9tbl : Table :=
  ⟨stdCols, [mkRow "J1" "01/02/2025" "RCBC - Checking" 100 0,
             mkRow "J1" "05/01 - Manual" "Expense" 0 100]⟩

/-- Date texts mentioning `ID 82114` while the identifier column says
`J9`/`J8`. -/
def tC10tbl : Table :=
  ⟨stdCols, [mkRow "J9" "Journal: ID 82114" "RCBC" 100 0,
             mkRow "J8" "03/01/2025" "RCBC" 0 100]⟩

/-- A table lacking the Credit column. -/
def tC6tbl : Table :=
  ⟨["Journal ID", "Account", "Debit"], [[Cell.str "J1", Cell.str "Cash", Cell.num 5]]⟩

/-- A table lacking the Debit column. -/
def tC6btbl : Table :=
  ⟨["Journal ID", "Account", "Credit"], [[Cell.str "J1", Cell.str "Cash", Cell.num 5]]⟩

/-- All four required columns present, but no Date column. -/
def tC7tbl : Table :=
  ⟨["Journal ID", "Account", "Debit", "Credit"],
   [[Cell.str "J1", Cell.str "Cash", Cell.num 5, Cell.num 0]]⟩

/-- Required plus Date columns, no narration column. -/
def tC7btbl : Table := ⟨stdCols, [mkRow "J1" "01/02/2025" "Cash" 5 0]⟩

/-- Two identifier groups with detail and footer lines, for the ordering
claim. -/
def tC5tbl : Table :=
  ⟨stdCols, [mkRow "B" "02/01/2025" "x" 1 0,
             mkRow "A" "01/01/2025" "y" 2 0,
             mkRow "A" "Total A" "z" 0 3]⟩

def tC8rows : List Row := [[Cell.str "a"], [Cell.str "b"]]

/-- The bucket output of `segregate pdNone tC3tbl`. -/
def bksC3 : Books :=
  ⟨[], [mkRow "J1" "01/02/2025" "RCBC - Checking" 0 100,
        mkRow "J1" "01/02/2025" "RCBC - Checking" 50 0], []⟩

/-- The bucket output of `segregate pdSmall tC5tbl`: group A (dated
before B) with its footer, one blank spacer row, then group B. -/
def bksC5 : Books :=
  ⟨[], [], [mkRow "A" "01/01/2025" "y" 2 0, mkRow "A" "Total A" "z" 0 3,
            blankRow 5, mkRow "B" "02/01/2025" "x" 1 0]⟩

/-! ## Theorems -/

/-! ### Generic list helpers -/

theorem map_getD_range {α : Type} (l : List α) (d : α) :
    (List.range l.length).map (fun i => l.getD i d) = l := by
  induction l with
  | nil => rfl
  | cons a t ih =>
      rw [List.length_cons, List.range_succ_eq_map, List.map_cons, List.map_map]
      simp only [List.getD_cons_zero, Function.comp_def, List.getD_cons_succ]
      rw [ih]

theorem final_rows_sublist (rows : List Row) (q : Finset ℕ) :
    (final_rows rows q).Sublist rows := by
  have h1 : (keptPositions rows q).Sublist (List.range rows.length) :=
    List.filter_sublist _
  have h2 := h1.map (fun i => rows.getD i [])
  rw [map_getD_range] at h2
  exact h2

/-- Claim C8 test: queue operations behave as the spec's set semantics. -/
theorem claim_C8 (rows : List Row) (q : Finset ℕ) (p : ℕ) (hp : p < rows.length) :
    p ∉ keptPositions rows (add_many q {p}) ∧
    p ∈ keptPositions rows (rescue q p) ∧
    rows.getD p [] ∈ final_rows rows (rescue q p) ∧
    (final_rows rows q).Sublist rows ∧
    (p ∈ q → add_many q {p} = q) ∧
    (p ∉ q → rescue q p = q) ∧
    add_many (add_many q {p}) {p} = add_many q {p} ∧
    rescue (rescue q p) p = rescue q p := by
  refine ⟨?_, ?_, ?_, final_rows_sublist rows q, ?_, ?_, ?_, ?_⟩
  · simp [keptPositions, add_many]
  · simp [keptPositions, rescue, List.mem_filter, List.mem_range, hp]
  · refine List.mem_map.mpr ⟨p, ?_, rfl⟩
    simp [keptPositions, rescue, List.mem_filter, List.mem_range, hp]
  · intro hpq
    simp [add_many, Finset.union_eq_left, hpq]
  · intro hpq
    exact Finset.erase_eq_of_not_mem hpq
  · simp [add_many, Finset.union_assoc]
  · simp [rescue, Finset.erase_idem]

theorem claim_C8_witness :
    1 < tC8rows.length ∧ 1 ∉ keptPositions tC8rows (add_many {0} {1}) :=
  ⟨by decide, (claim_C8 tC8rows {0} 1 (by decide)).1⟩

/-! ### MatchEngine lemmas -/

theorem reMatchAt_eq_isPrefixOf (pat : List Char) (l : List Char)
    (h : pat.all (fun ch => !isMeta ch) = true) :
    reMatchAt pat l = pat.isPrefixOf l := by
  induction pat generalizing l with
  | nil => cases l <;> rfl
  | cons p pt ih =>
      have hcons := h
      rw [List.all_cons, Bool.and_eq_true] at hcons
      have hp : isMeta p = false := by simpa using hcons.1
      have hpt : pt.all (fun ch => !isMeta ch) = true := hcons.2
      cases l with
      | nil => rfl
      | cons c ct =>
          have hdot : p ≠ '.' := by
            intro he; rw [he] at hp; exact absurd hp (by decide)
          simp only [reMatchAt, List.isPrefixOf, if_neg hdot, ih ct hpt]
          congr 1

theorem reSearch_eq_hasSub (s pat : String) (h : metaFree pat = true) :
    reSearch s pat = hasSub s pat := by
  unfold reSearch hasSub
  have hall : pat.data.all (fun ch => !isMeta ch) = true := h
  induction s.data with
  | nil =>
      simp only [reSearchChars, charsHasSub]
      rw [reMatchAt_eq_isPrefixOf _ _ hall]
      cases pat.data <;> rfl
  | cons c t ih =>
      simp only [reSearchChars, charsHasSub]
      rw [reMatchAt_eq_isPrefixOf _ _ hall, ih]

/-- Claim C2 test (amended): for metacharacter-free queries the result is
the ascending list of substring-match positions plus immediate-next "total"
rows; empty query matches nothing. -/
theorem claim_C2_amended (rows : List Row) (q : String) (hq : metaFree q = true) :
    List.Sorted (· < ·) (get_rows_to_delete_logic rows q) ∧
    ∀ i : ℕ, i ∈ get_rows_to_delete_logic rows q ↔
      (q ≠ "" ∧ i < rows.length ∧
        (((rows.getD i []).any (fun cl => hasSub (cellStr cl) q)) = true ∨
          (0 < i ∧ ((rows.getD (i - 1) []).any (fun cl => hasSub (cellStr cl) q)) = true ∧
            rowHasTotal (rows.getD i []) = true))) := by
  constructor
  · unfold get_rows_to_delete_logic
    split
    · exact List.sorted_nil
    · exact (List.pairwise_lt_range _).filter _
  · intro i
    unfold get_rows_to_delete_logic
    split
    case isTrue hq0 => simp [hq0]
    case isFalse hq0 =>
      have hrw : ∀ s, reSearch s q = hasSub s q := fun s => reSearch_eq_hasSub s q hq
      simp only [List.mem_filter, List.mem_range, rowMatchesQ, hrw, Bool.or_eq_true,
        Bool.and_eq_true, decide_eq_true_eq, List.contains, List.elem_iff]
      constructor
      · rintro ⟨hin, h⟩
        refine ⟨hq0, hin, ?_⟩
        rcases h with ⟨-, hA⟩ | ⟨⟨hpos, -, hB⟩, hC⟩
        · exact Or.inl hA
        · exact Or.inr ⟨hpos, hB, hC⟩
      · rintro ⟨-, hin, h⟩
        refine ⟨hin, ?_⟩
        rcases h with hA | ⟨hpos, hB, hC⟩
        · exact Or.inl ⟨hin, hA⟩
        · exact Or.inr ⟨⟨hpos, by omega, hB⟩, hC⟩

/-- Claim C2 counterexample: the query is fed to pandas `str.contains`
with `regex=True`, so `"1.5"` matches the cell `"105"` although it is not
a substring of it. -/
theorem claim_C2_counterexample :
    get_rows_to_delete_logic [[Cell.str "105"]] "1.5" = [0] ∧
    hasSub "105" "1.5" = false := by
  exact ⟨by decide, by decide⟩

theorem claim_C2_amended_witness :
    metaFree "Apple" = true ∧
    List.Sorted (· < ·) (get_rows_to_delete_logic [[Cell.str "apple"]] "Apple") :=
  ⟨by decide, (claim_C2_amended [[Cell.str "apple"]] "Apple" (by decide)).1⟩

/-! ### Identifier-normalization lemmas (claim C4) -/

theorem specBlank_false (s : String) : specBlank false s = blankIdVal s := rfl

theorem ffill_prefix_general (idC : Nat) (rows : List Row) :
    ∀ last : Option String,
      (rows.zip (ffillO last (rows.map (idKey idC)))).filterMap
          (fun rk => rk.2.map (fun v => rk.1.set idC (Cell.str v)))
        = (List.range rows.length).filterMap (fun j =>
            ((((rows.take (j + 1)).map (idKey idC)).reverse.findSome? (fun x => x)).or last).map
              (fun v => (rows.getD j []).set idC (Cell.str v))) := by
  induction rows with
  | nil => intro last; rfl
  | cons r rs ih =>
      intro last
      rw [List.length_cons, List.range_succ_eq_map, List.filterMap_cons, List.filterMap_map]
      cases hk : idKey idC r with
      | some v =>
          have h1 : ∀ A : Option String, (A.or (some v)).or last = A.or (some v) := by
            intro A; cases A <;> rfl
          have h2 : (Option.some v).or last = some v := rfl
          simp only [List.map_cons, hk, ffillO, List.zip_cons_cons, List.filterMap_cons,
            Option.map_some', List.take_succ_cons, List.take_zero, List.reverse_cons,
            List.reverse_nil, List.nil_append, List.findSome?_cons, List.findSome?_nil,
            List.getD_cons_zero, Function.comp_def, List.map_nil,
            List.findSome?_append, List.getD_cons_succ, h1, h2]
          rw [ih (some v)]
      | none =>
          have h1 : ∀ A : Option String, A.or none = A := by
            intro A; cases A <;> rfl
          have h2 : (Option.none).or last = last := rfl
          simp only [List.map_cons, hk, ffillO, List.zip_cons_cons, List.filterMap_cons,
            List.take_succ_cons, List.take_zero, List.reverse_cons,
            List.reverse_nil, List.nil_append, List.findSome?_cons, List.findSome?_nil,
            List.getD_cons_zero, Function.comp_def, List.map_nil,
            List.findSome?_append, List.getD_cons_succ, h1, h2]
          rw [ih last]

/-- Claim C4 test (amended): the classifier's identifier normalization
equals the spec's trim / blank / nearest-preceding-fill / drop pipeline
with **case-sensitive** blanking, and Scenario 3 forward-fills
`["J1", "", "", "J2"]` to `["J1", "J1", "J1", "J2"]`. -/
theorem claim_C4_amended (idC : Nat) (rows : List Row) :
    normalizeIds idC rows = specNormalize false idC rows ∧
    (normalizeIds 0 [[Cell.str "J1"], [Cell.str ""], [Cell.str ""], [Cell.str "J2"]]).map (idOf 0)
      = ["J1", "J1", "J1", "J2"] := by
  constructor
  · have hg := ffill_prefix_general idC rows none
    have hor : ∀ X : Option String, X.or none = X := by intro X; cases X <;> rfl
    unfold normalizeIds
    rw [hg]
    unfold specNormalize
    refine congrArg (fun f => List.filterMap f (List.range rows.length)) (funext fun j => ?_)
    rw [hor]
    rfl
  · decide

/-- Claim C4 counterexample: the blanking regex is applied
case-sensitively (`Series.replace` compiles it without `re.IGNORECASE`),
so the identifier `"Total"` survives instead of being blanked and
forward-filled as the claim (case-insensitive matching) requires. -/
theorem claim_C4_counterexample :
    normalizeIds 0 [[Cell.str "J1"], [Cell.str "Total"]]
        ≠ specNormalize true 0 [[Cell.str "J1"], [Cell.str "Total"]] ∧
    normalizeIds 0 [[Cell.str "J1"], [Cell.str "Total"]] = [[Cell.str "J1"], [Cell.str "Total"]] ∧
    specNormalize true 0 [[Cell.str "J1"], [Cell.str "Total"]] = [[Cell.str "J1"], [Cell.str "J1"]] :=
  ⟨by decide, by decide, by decide⟩

/-! ### Missing-column error handling (claims C6, C7) -/

theorem clean_reversals_cols (t : Table) : (clean_reversals t).cols = t.cols := by
  simp only [clean_reversals]
  split <;> rfl

/-- Claim C6 test (amended): whenever any of the four required columns
fails to resolve, `segregate` raises the fixed `ValueError` message
`"Missing required columns"` and produces no buckets. -/
theorem claim_C6_amended (pdate : String → Option Nat) (t : Table)
    (h : getColumnName t.cols idCands = none ∨ getColumnName t.cols accCands = none ∨
         getColumnName t.cols debCands = none ∨ getColumnName t.cols creCands = none) :
    segregate pdate t = .error "Missing required columns" := by
  have hc := clean_reversals_cols t
  cases h1 : getColumnName t.cols idCands with
  | none => simp [segregate, mkCtx, hc, h1, Except.map]
  | some i =>
      cases h2 : getColumnName t.cols accCands with
      | none => simp [segregate, mkCtx, hc, h1, h2, Except.map]
      | some a =>
          cases h3 : getColumnName t.cols debCands with
          | none => simp [segregate, mkCtx, hc, h1, h2, h3, Except.map]
          | some d =>
              cases h4 : getColumnName t.cols creCands with
              | none => simp [segregate, mkCtx, hc, h1, h2, h3, h4, Except.map]
              | some cr => exfalso; rcases h with h | h | h | h <;> simp_all

/-- Claim C6 counterexample: on a table lacking the Credit column the
fatal message is the fixed string `"Missing required columns"`; it does
not name the missing column (it never mentions "credit"). -/
theorem claim_C6_counterexample :
    segregate pdNone tC6tbl = .error "Missing required columns" ∧
    hasSubCI "Missing required columns" "credit" = false :=
  ⟨rfl, by decide⟩

theorem claim_C6_amended_witness :
    (getColumnName tC6btbl.cols idCands = none ∨ getColumnName tC6btbl.cols accCands = none ∨
      getColumnName tC6btbl.cols debCands = none ∨ getColumnName tC6btbl.cols creCands = none) ∧
    segregate pdNone tC6btbl = .error "Missing required columns" :=
  ⟨by decide, claim_C6_amended pdNone tC6btbl (by decide)⟩

/-- Claim C7 test: a table with all four required columns but no Date
column makes `segregate` crash with the unhandled `KeyError: None` raised
by the junk-row cleanup's unguarded `df[date_col]` — it does not degrade
gracefully.  A missing narration column, by contrast, degrades as the
claim says. -/
theorem claim_C7_code_bug :
    segregate pdNone tC7tbl = .error "KeyError: None" ∧
    segregate pdNone tC7btbl = .ok ⟨[], [], [mkRow "J1" "01/02/2025" "Cash" 5 0]⟩ :=
  ⟨rfl, rfl⟩

/-! ### Bucket-decision lemmas (claims C3, C9, C10) -/

theorem group_any_iff (c : Ctx) (surv : List Row) (p : Row → Bool) (r : Row) :
    (surv.filter (sameGroup c.idC r)).any p = true ↔
      ∃ x ∈ surv, idOf c.idC x = idOf c.idC r ∧ p x = true := by
  simp [List.any_eq_true, List.mem_filter, sameGroup, and_assoc]

/-- Claim C3 test: the bucket of a surviving row is decided by the manual
override first, then the group-level receipt signal, then the group-level
disburse signal, with General Journal as default.  In particular a group
holding both a bank-debit and a bank-credit line is a receipt. -/
theorem claim_C3 (pdate : String → Option Nat) (t : Table) (c : Ctx)
    (h : mkCtx (clean_reversals t).cols = .ok c) (r : Row) (hr : r ∈ survivors t c) :
    bookOf c (survivors t c) r =
      if isManualRow c r = true then Book.gj
      else if ∃ x ∈ survivors t c, idOf c.idC x = idOf c.idC r ∧ receiptTrig c x = true then Book.cr
      else if ∃ x ∈ survivors t c, idOf c.idC x = idOf c.idC r ∧ disburseTrig c x = true then Book.cd
      else Book.gj := by
  unfold bookOf
  by_cases hm : isManualRow c r = true
  · simp [hm]
  · by_cases h1 : ∃ x ∈ survivors t c, idOf c.idC x = idOf c.idC r ∧ receiptTrig c x = true
    · have hb := (group_any_iff c (survivors t c) (receiptTrig c) r).mpr h1
      simp [hm, h1, hb]
    · have hb : ((survivors t c).filter (sameGroup c.idC r)).any (receiptTrig c) ≠ true :=
        fun hh => h1 ((group_any_iff c (survivors t c) (receiptTrig c) r).mp hh)
      by_cases h2 : ∃ x ∈ survivors t c, idOf c.idC x = idOf c.idC r ∧ disburseTrig c x = true
      · have hb2 := (group_any_iff c (survivors t c) (disburseTrig c) r).mpr h2
        simp [hm, h1, h2, hb, hb2]
      · have hb2 : ((survivors t c).filter (sameGroup c.idC r)).any (disburseTrig c) ≠ true :=
          fun hh => h2 ((group_any_iff c (survivors t c) (disburseTrig c) r).mp hh)
        simp [hm, h1, h2, hb, hb2]

theorem claim_C3_witness :
    mkCtx (clean_reversals tC3tbl).cols = .ok stdCtx ∧
    mkRow "J1" "01/02/2025" "RCBC - Checking" 0 100 ∈ survivors tC3tbl stdCtx ∧
    bookOf stdCtx (survivors tC3tbl stdCtx)
      (mkRow "J1" "01/02/2025" "RCBC - Checking" 0 100) = Book.cr := by
  refine ⟨rfl, by decide, ?_⟩
  rw [claim_C3 pdNone tC3tbl stdCtx rfl _ (by decide)]
  decide

/-- Claim C9 test (amended): rows of one identifier group that are not
manual-override rows always land in the same bucket, and every
manual-override row lands in the General Journal — so a group can only be
split by the manual override. -/
theorem claim_C9_amended (pdate : String → Option Nat) (t : Table) (c : Ctx)
    (h : mkCtx (clean_reversals t).cols = .ok c)
    (r1 r2 : Row) (h1 : r1 ∈ survivors t c) (h2 : r2 ∈ survivors t c)
    (hid : idOf c.idC r1 = idOf c.idC r2)
    (hm1 : isManualRow c r1 = false) (hm2 : isManualRow c r2 = false) :
    bookOf c (survivors t c) r1 = bookOf c (survivors t c) r2 ∧
    ∀ r : Row, isManualRow c r = true → bookOf c (survivors t c) r = Book.gj := by
  constructor
  · have hs : sameGroup c.idC r1 = sameGroup c.idC r2 := by
      funext x; unfold sameGroup; rw [hid]
    unfold bookOf
    rw [hs]
    simp [hm1, hm2]
  · intro r hr
    unfold bookOf
    simp [hr]

/-- Claim C9 counterexample: in `tC9tbl` both rows share the group key
`"J1"`, yet the manual row is placed in General Journal while the
bank-debit row is placed in Cash Receipts — one group, two buckets. -/
theorem claim_C9_counterexample :
    segregate pdNone tC9tbl =
      .ok ⟨[], [mkRow "J1" "01/02/2025" "RCBC - Checking" 100 0],
           [mkRow "J1" "05/01 - Manual" "Expense" 0 100]⟩ ∧
    idOf 0 (mkRow "J1" "01/02/2025" "RCBC - Checking" 100 0) =
      idOf 0 (mkRow "J1" "05/01 - Manual" "Expense" 0 100) :=
  ⟨rfl, rfl⟩

theorem claim_C9_amended_witness :
    (mkCtx (clean_reversals tC3tbl).cols = .ok stdCtx ∧
      mkRow "J1" "01/02/2025" "RCBC - Checking" 0 100 ∈ survivors tC3tbl stdCtx ∧
      mkRow "J1" "01/02/2025" "RCBC - Checking" 50 0 ∈ survivors tC3tbl stdCtx ∧
      isManualRow stdCtx (mkRow "J1" "01/02/2025" "RCBC - Checking" 0 100) = false) ∧
    bookOf stdCtx (survivors tC3tbl stdCtx) (mkRow "J1" "01/02/2025" "RCBC - Checking" 0 100) =
      bookOf stdCtx (survivors tC3tbl stdCtx) (mkRow "J1" "01/02/2025" "RCBC - Checking" 50 0) :=
  ⟨⟨rfl, by decide, by decide, rfl⟩,
    (claim_C9_amended pdNone tC3tbl stdCtx rfl
      (mkRow "J1" "01/02/2025" "RCBC - Checking" 0 100)
      (mkRow "J1" "01/02/2025" "RCBC - Checking" 50 0)
      (by decide) (by decide) rfl rfl rfl).1⟩

/-- Claim C10 test: with a date column whose text carries `ID 82114`
(matched case-insensitively), the digits are extracted, forward-filled and
overwrite the identifier column before normalization, so the grouping key
`"82114"` differs from every value of the input's identifier column; the
merged group is then classified as one unit. -/
theorem claim_C10 :
    mkCtx tC10tbl.cols = .ok stdCtx ∧
    (survivors tC10tbl stdCtx).map (idOf stdCtx.idC) = ["82114", "82114"] ∧
    (∀ s ∈ tC10tbl.rows.map (fun r => colStr r stdCtx.idC), s ≠ "82114") ∧
    extractFirstId "ref id 99".data = some "99" ∧
    segregate pdNone tC10tbl =
      .ok ⟨[], [mkRow "82114" "Journal: ID 82114" "RCBC" 100 0,
                mkRow "82114" "03/01/2025" "RCBC" 0 100], []⟩ :=
  ⟨rfl, rfl, by decide, rfl, by decide⟩

/-! ### Order properties of the sort comparator (claims C1, C5) -/

theorem charsLt_trans (a : List Char) :
    ∀ b c, charsLt a b = true → charsLt b c = true → charsLt a c = true := by
  induction a with
  | nil =>
      intro b c hab hbc
      cases b with
      | nil => simp [charsLt] at hab
      | cons y ys =>
          cases c with
          | nil => simp [charsLt] at hbc
          | cons z zs => rfl
  | cons x xs ih =>
      intro b c hab hbc
      cases b with
      | nil => simp [charsLt] at hab
      | cons y ys =>
          cases c with
          | nil => simp [charsLt] at hbc
          | cons z zs =>
              simp only [charsLt, Bool.or_eq_true, Bool.and_eq_true, decide_eq_true_eq]
                at hab hbc ⊢
              rcases hab with h1 | ⟨he1, hr1⟩
              · rcases hbc with h2 | ⟨he2, hr2⟩
                · exact Or.inl (lt_trans h1 h2)
                · exact Or.inl (he2 ▸ h1)
              · rcases hbc with h2 | ⟨he2, hr2⟩
                · exact Or.inl (he1 ▸ h2)
                · exact Or.inr ⟨he1.trans he2, ih ys zs hr1 hr2⟩

theorem charsLt_trichotomy (a : List Char) :
    ∀ b, charsLt a b = true ∨ a = b ∨ charsLt b a = true := by
  induction a with
  | nil =>
      intro b
      cases b with
      | nil => exact Or.inr (Or.inl rfl)
      | cons y ys => exact Or.inl rfl
  | cons x xs ih =>
      intro b
      cases b with
      | nil => exact Or.inr (Or.inr rfl)
      | cons y ys =>
          rcases lt_trichotomy x y with h | h | h
          · left; simp [charsLt, h]
          · rcases ih ys with h2 | h2 | h2
            · left; simp [charsLt, h, h2]
            · right; left; rw [h, h2]
            · right; right; simp [charsLt, h.symm, h2]
          · right; right; simp [charsLt, h]

theorem optDLt_trans :
    ∀ a b c : Option Nat, optDLt a b = true → optDLt b c = true → optDLt a c = true := by
  intro a b c hab hbc
  cases a <;> cases b <;> cases c <;> simp_all [optDLt]
  omega

theorem optDLt_trichotomy (a b : Option Nat) :
    optDLt a b = true ∨ a = b ∨ optDLt b a = true := by
  cases a <;> cases b <;> simp_all [optDLt]
  omega

theorem pairLtB_trans (p1 p2 p3 : Option Nat × List Char)
    (h1 : pairLtB p1 p2 = true) (h2 : pairLtB p2 p3 = true) : pairLtB p1 p3 = true := by
  simp only [pairLtB, Bool.or_eq_true, Bool.and_eq_true, decide_eq_true_eq] at h1 h2 ⊢
  rcases h1 with h1 | ⟨he1, hc1⟩
  · rcases h2 with h2 | ⟨he2, hc2⟩
    · exact Or.inl (optDLt_trans _ _ _ h1 h2)
    · exact Or.inl (he2 ▸ h1)
  · rcases h2 with h2 | ⟨he2, hc2⟩
    · exact Or.inl (he1 ▸ h2)
    · exact Or.inr ⟨he1.trans he2, charsLt_trans _ _ _ hc1 hc2⟩

theorem keyLeB_total (k1 k2 : KeyT) : keyLeB k1 k2 = true ∨ keyLeB k2 k1 = true := by
  obtain ⟨d1, i1, r1⟩ := k1
  obtain ⟨d2, i2, r2⟩ := k2
  simp only [keyLeB, pairLtB, Bool.or_eq_true, Bool.and_eq_true, decide_eq_true_eq]
  rcases optDLt_trichotomy d1 d2 with h | h | h
  · exact Or.inl (Or.inl (Or.inl h))
  · rcases charsLt_trichotomy i1 i2 with h2 | h2 | h2
    · exact Or.inl (Or.inl (Or.inr ⟨h, h2⟩))
    · rcases Nat.le_total r1 r2 with h3 | h3
      · exact Or.inl (Or.inr ⟨⟨h, h2⟩, h3⟩)
      · exact Or.inr (Or.inr ⟨⟨h.symm, h2.symm⟩, h3⟩)
    · exact Or.inr (Or.inl (Or.inr ⟨h.symm, h2⟩))
  · exact Or.inr (Or.inl (Or.inl h))

theorem keyLeB_trans (k1 k2 k3 : KeyT) (h1 : keyLeB k1 k2 = true)
    (h2 : keyLeB k2 k3 = true) : keyLeB k1 k3 = true := by
  obtain ⟨d1, i1, r1⟩ := k1
  obtain ⟨d2, i2, r2⟩ := k2
  obtain ⟨d3, i3, r3⟩ := k3
  simp only [keyLeB, Bool.or_eq_true, Bool.and_eq_true, decide_eq_true_eq] at h1 h2 ⊢
  rcases h1 with h1 | ⟨⟨hd1, hi1⟩, hr1⟩
  · rcases h2 with h2 | ⟨⟨hd2, hi2⟩, hr2⟩
    · exact Or.inl (pairLtB_trans _ _ _ h1 h2)
    · left
      have : ((d2, i2) : Option Nat × List Char) = (d3, i3) := by rw [hd2, hi2]
      exact this ▸ h1
  · rcases h2 with h2 | ⟨⟨hd2, hi2⟩, hr2⟩
    · left
      have : ((d2, i2) : Option Nat × List Char) = (d1, i1) := by rw [hd1, hi1]
      exact this ▸ h2
    · exact Or.inr ⟨⟨hd1.trans hd2, hi1.trans hi2⟩, Nat.le_trans hr1 hr2⟩

theorem keyLe_of_pairLt (k1 k2 : KeyT)
    (h : pairLtB (k1.1, k1.2.1) (k2.1, k2.2.1) = true) : keyLeB k1 k2 = true := by
  simp only [keyLeB, Bool.or_eq_true]
  exact Or.inl h

theorem pairLt_or_eq_of_keyLe (k1 k2 : KeyT) (h : keyLeB k1 k2 = true) :
    pairLtB (k1.1, k1.2.1) (k2.1, k2.2.1) = true ∨ (k1.1 = k2.1 ∧ k1.2.1 = k2.2.1) := by
  simp only [keyLeB, Bool.or_eq_true, Bool.and_eq_true, decide_eq_true_eq] at h
  rcases h with h | ⟨⟨hd, hi⟩, -⟩
  · exact Or.inl h
  · exact Or.inr ⟨hd, hi⟩

instance (pdate : String → Option Nat) (c : Ctx) (bucket : List Row) :
    IsTotal Row (keyLE pdate c bucket) :=
  ⟨fun a b => keyLeB_total (rowKey pdate c bucket a) (rowKey pdate c bucket b)⟩

instance (pdate : String → Option Nat) (c : Ctx) (bucket : List Row) :
    IsTrans Row (keyLE pdate c bucket) :=
  ⟨fun a b d h1 h2 => keyLeB_trans _ _ _ h1 h2⟩

/-! ### `uniqueFirst` (pandas `Series.unique`) lemmas -/

theorem uniqueFirst_subset : ∀ (l seen : List String), uniqueFirst seen l ⊆ l := by
  intro l
  induction l with
  | nil => intro seen x hx; cases hx
  | cons a t ih =>
      intro seen x hx
      by_cases ha : a ∈ seen
      · simp only [uniqueFirst, if_pos ha] at hx
        exact List.mem_cons_of_mem a (ih seen hx)
      · simp only [uniqueFirst, if_neg ha] at hx
        rcases List.mem_cons.mp hx with rfl | hx2
        · exact List.mem_cons_self _ _
        · exact List.mem_cons_of_mem a (ih (a :: seen) hx2)

theorem uniqueFirst_not_seen : ∀ (l seen : List String) (v : String),
    v ∈ uniqueFirst seen l → v ∉ seen := by
  intro l
  induction l with
  | nil => intro seen v hv; cases hv
  | cons a t ih =>
      intro seen v hv
      by_cases ha : a ∈ seen
      · simp only [uniqueFirst, if_pos ha] at hv
        exact ih seen v hv
      · simp only [uniqueFirst, if_neg ha] at hv
        rcases List.mem_cons.mp hv with rfl | hv2
        · exact ha
        · intro hseen
          exact ih (a :: seen) v hv2 (List.mem_cons_of_mem a hseen)

theorem uniqueFirst_mem : ∀ (l seen : List String) (v : String),
    v ∈ l → v ∉ seen → v ∈ uniqueFirst seen l := by
  intro l
  induction l with
  | nil => intro seen v hv; cases hv
  | cons a t ih =>
      intro seen v hv hns
      by_cases ha : a ∈ seen
      · simp only [uniqueFirst, if_pos ha]
        rcases List.mem_cons.mp hv with rfl | hv2
        · exact absurd ha hns
        · exact ih seen v hv2 hns
      · simp only [uniqueFirst, if_neg ha]
        rcases List.mem_cons.mp hv with rfl | hv2
        · exact List.mem_cons_self _ _
        · by_cases hva : v = a
          · subst hva; exact List.mem_cons_self _ _
          · exact List.mem_cons_of_mem a
              (ih (a :: seen) v hv2 (by simp [hva, hns]))

theorem uniqueFirst_pairwise {R : String → String → Prop} :
    ∀ (l seen : List String), l.Pairwise R →
      (uniqueFirst seen l).Pairwise (fun u v => R u v ∧ u ≠ v) := by
  intro l
  induction l with
  | nil => intro seen _; exact List.Pairwise.nil
  | cons a t ih =>
      intro seen h
      have hhd := (List.pairwise_cons.mp h).1
      have htl := (List.pairwise_cons.mp h).2
      by_cases ha : a ∈ seen
      · simp only [uniqueFirst, if_pos ha]
        exact ih seen htl
      · simp only [uniqueFirst, if_neg ha]
        refine List.pairwise_cons.mpr ⟨?_, ih (a :: seen) htl⟩
        intro v hv
        refine ⟨hhd v (uniqueFirst_subset t (a :: seen) hv), ?_⟩
        have hns := uniqueFirst_not_seen t (a :: seen) v hv
        intro he
        exact hns (he ▸ List.mem_cons_self a seen)

theorem uniqueFirst_ne (l seen : List String) :
    (uniqueFirst seen l).Pairwise (· ≠ ·) := by
  have h : l.Pairwise (fun _ _ => True) := by
    induction l with
    | nil => exact List.Pairwise.nil
    | cons a t ih => exact List.pairwise_cons.mpr ⟨fun _ _ => trivial, ih⟩
  exact (uniqueFirst_pairwise l seen h).imp (fun hp => hp.2)

/-! ### Regrouping by unique identifiers is a permutation -/

theorem groups_flatten_perm (f : Row → String) :
    ∀ (ids : List String) (s : List Row), ids.Pairwise (· ≠ ·) →
      (∀ r ∈ s, f r ∈ ids) →
      ((ids.map (fun v => s.filter (fun r => decide (f r = v)))).flatten).Perm s := by
  intro ids
  induction ids with
  | nil =>
      intro s _ hall
      cases s with
      | nil => exact List.Perm.refl _
      | cons r rs => exact absurd (hall r (List.mem_cons_self _ _)) (by simp)
  | cons v vs ih =>
      intro s hnd hall
      have hhd := (List.pairwise_cons.mp hnd).1
      have htl := (List.pairwise_cons.mp hnd).2
      rw [List.map_cons, List.flatten_cons]
      have hgrp : vs.map (fun u => s.filter (fun r => decide (f r = u)))
          = vs.map (fun u => (s.filter (fun r => !decide (f r = v))).filter
              (fun r => decide (f r = u))) := by
        apply List.map_congr_left
        intro u hu
        rw [List.filter_filter]
        apply List.filter_congr
        intro r _
        by_cases hfu : f r = u
        · have hvne : ¬(u = v) := fun he => (hhd u hu) he.symm
          simp [hfu, hvne]
        · simp [hfu]
      rw [hgrp]
      have hsub : ∀ r ∈ s.filter (fun r => !decide (f r = v)), f r ∈ vs := by
        intro r hr
        have h1 := List.mem_filter.mp hr
        have h2 : ¬(f r = v) := by simpa using h1.2
        rcases List.mem_cons.mp (hall r h1.1) with he | hm
        · exact absurd he h2
        · exact hm
      have hperm := ih (s.filter (fun r => !decide (f r = v))) htl hsub
      refine List.Perm.trans (List.Perm.append_left _ hperm) ?_
      exact List.filter_append_perm _ s

theorem regroup_perm (f : Row → String) (s : List Row) :
    (((uniqueFirst [] (s.map f)).map
        (fun v => s.filter (fun r => decide (f r = v)))).flatten).Perm s := by
  apply groups_flatten_perm f (uniqueFirst [] (s.map f)) s (uniqueFirst_ne _ _)
  intro r hr
  exact uniqueFirst_mem _ _ _ (List.mem_map_of_mem f hr) (by simp)

/-! ### Structure of a sorted bucket (claims C1, C5) -/

theorem str_data_inj (u v : String) (h : u.data = v.data) : u = v := by
  cases u; cases v; exact congrArg String.mk h

theorem rowKey_eq (pdate : String → Option Nat) (c : Ctx) (bucket : List Row) (r : Row) :
    rowKey pdate c bucket r
      = (groupMinDate pdate c bucket (idOf c.idC r), (idOf c.idC r).data,
          rankOf pdate c r) := rfl

theorem bookGroups_facts (pdate : String → Option Nat) (c : Ctx) (bucket : List Row) :
    ((bookGroups pdate c bucket).flatten).Perm bucket ∧
    List.Sorted (keyLE pdate c bucket) (bookGroups pdate c bucket).flatten ∧
    (∀ g ∈ bookGroups pdate c bucket, g ≠ [] ∧
      ∀ x ∈ g, ∀ y ∈ g, idOf c.idC x = idOf c.idC y) ∧
    (bookGroups pdate c bucket).Pairwise
      (fun g1 g2 => ∀ x ∈ g1, ∀ y ∈ g2, idOf c.idC x ≠ idOf c.idC y) := by
  set s := List.insertionSort (keyLE pdate c bucket) bucket with hs_def
  have hbg : bookGroups pdate c bucket
      = (uniqueFirst [] (s.map (idOf c.idC))).map
          (fun v => s.filter (fun r => decide (idOf c.idC r = v))) := rfl
  have hsorted : List.Sorted (keyLE pdate c bucket) s :=
    List.sorted_insertionSort _ _
  have hperm_s : s.Perm bucket := List.perm_insertionSort _ _
  -- pairwise strict dominance of the unique identifiers
  have hmap : (s.map (idOf c.idC)).Pairwise (fun u v =>
      pairLtB (groupMinDate pdate c bucket u, u.data)
              (groupMinDate pdate c bucket v, v.data) = true ∨
      (groupMinDate pdate c bucket u = groupMinDate pdate c bucket v ∧ u.data = v.data)) := by
    refine List.pairwise_map.mpr (hsorted.imp ?_)
    intro x y hxy
    have := pairLt_or_eq_of_keyLe _ _ hxy
    simpa [rowKey_eq] using this
  have hids : (uniqueFirst [] (s.map (idOf c.idC))).Pairwise (fun u v =>
      pairLtB (groupMinDate pdate c bucket u, u.data)
              (groupMinDate pdate c bucket v, v.data) = true) := by
    refine (uniqueFirst_pairwise _ [] hmap).imp ?_
    rintro a b ⟨hR | ⟨-, hdata⟩, hne⟩
    · exact hR
    · exact absurd (str_data_inj _ _ hdata) hne
  have hids_ne : (uniqueFirst [] (s.map (idOf c.idC))).Pairwise (· ≠ ·) :=
    uniqueFirst_ne _ _
  refine ⟨?_, ?_, ?_, ?_⟩
  · rw [hbg]
    exact (regroup_perm (idOf c.idC) s).trans hperm_s
  · rw [hbg]
    apply List.pairwise_flatten.mpr
    constructor
    · intro g hg
      rcases List.mem_map.mp hg with ⟨v, -, rfl⟩
      exact hsorted.filter _
    · refine List.pairwise_map.mpr (hids.imp ?_)
      intro u v huv
      intro x hx y hy
      have hxu : idOf c.idC x = u := by simpa using (List.mem_filter.mp hx).2
      have hyv : idOf c.idC y = v := by simpa using (List.mem_filter.mp hy).2
      apply keyLe_of_pairLt
      rw [rowKey_eq, rowKey_eq, hxu, hyv]
      exact huv
  · rw [hbg]
    intro g hg
    rcases List.mem_map.mp hg with ⟨v, hv, rfl⟩
    constructor
    · rcases List.mem_map.mp
        (uniqueFirst_subset (s.map (idOf c.idC)) [] hv) with ⟨r, hr, rfl⟩
      have : r ∈ s.filter (fun x => decide (idOf c.idC x = idOf c.idC r)) :=
        List.mem_filter.mpr ⟨hr, by simp⟩
      exact List.ne_nil_of_mem this
    · intro x hx y hy
      have hxu : idOf c.idC x = v := by simpa using (List.mem_filter.mp hx).2
      have hyv : idOf c.idC y = v := by simpa using (List.mem_filter.mp hy).2
      rw [hxu, hyv]
  · rw [hbg]
    refine List.pairwise_map.mpr (hids_ne.imp ?_)
    intro u v huv x hx y hy
    have hxu : idOf c.idC x = u := by simpa using (List.mem_filter.mp hx).2
    have hyv : idOf c.idC y = v := by simpa using (List.mem_filter.mp hy).2
    rw [hxu, hyv]
    exact huv

/-! ### Spacer insertion (claims C1, C5) -/

theorem blankRow_isBlank (n : ℕ) : isBlankRow (blankRow n) = true := by
  simp only [isBlankRow, blankRow, List.all_eq_true]
  intro c hc
  simp [List.eq_of_mem_replicate hc]

theorem flatten_dropLast_eq_withSpacers (blank : Row) :
    ∀ gs : List (List Row),
      ((gs.map (fun g => g ++ [blank])).flatten).dropLast = withSpacers blank gs := by
  intro gs
  induction gs with
  | nil => rfl
  | cons g gs ih =>
      cases gs with
      | nil =>
          simp only [List.map_cons, List.map_nil, List.flatten_cons, List.flatten_nil,
            List.append_nil, withSpacers]
          exact List.dropLast_concat
      | cons g2 rest =>
          have hne : ((List.map (fun g => g ++ [blank]) (g2 :: rest)).flatten) ≠ [] := by
            simp only [List.map_cons, List.flatten_cons]
            intro hcon
            have := congrArg List.length hcon
            simp at this
          rw [List.map_cons, List.flatten_cons, List.dropLast_append_of_ne_nil _ hne, ih]
          show (g ++ [blank]) ++ withSpacers blank (g2 :: rest)
              = g ++ blank :: withSpacers blank (g2 :: rest)
          rw [List.append_assoc, List.singleton_append]

theorem removeBlanks_withSpacers (blank : Row) (hb : isBlankRow blank = true) :
    ∀ gs : List (List Row), (∀ g ∈ gs, ∀ r ∈ g, isBlankRow r = false) →
      removeBlanks (withSpacers blank gs) = gs.flatten := by
  intro gs
  induction gs with
  | nil => intro _; rfl
  | cons g gs ih =>
      intro hnb
      have hg : ∀ r ∈ g, isBlankRow r = false := hnb g (List.mem_cons_self _ _)
      have hfil : removeBlanks g = g := by
        apply List.filter_eq_self.mpr
        intro r hr
        simp [hg r hr]
      cases gs with
      | nil =>
          simp only [withSpacers, List.flatten_cons, List.flatten_nil, List.append_nil]
          exact hfil
      | cons g2 rest =>
          have htail : ∀ g' ∈ g2 :: rest, ∀ r ∈ g', isBlankRow r = false :=
            fun g' hg' => hnb g' (List.mem_cons_of_mem _ hg')
          show removeBlanks (g ++ blank :: withSpacers blank (g2 :: rest)) = _
          unfold removeBlanks
          rw [List.filter_append, List.filter_cons]
          simp only [hb, Bool.not_true, List.flatten_cons]
          rw [show List.filter (fun r => !isBlankRow r) g = g from hfil]
          rw [show List.filter (fun r => !isBlankRow r)
                (withSpacers blank (g2 :: rest)) = (g2 :: rest).flatten from ih htail]
          simp [List.flatten_cons]

/-! ### The three buckets partition the surviving rows (claim C1) -/

theorem filter_books_perm (f : Row → Book) (l : List Row) :
    (l.filter (fun r => decide (f r = Book.cd)) ++
      l.filter (fun r => decide (f r = Book.cr)) ++
      l.filter (fun r => decide (f r = Book.gj))).Perm l := by
  induction l with
  | nil => exact List.Perm.nil
  | cons x t ih =>
      cases hx : f x with
      | cd =>
          simp only [List.filter_cons, hx, decide_eq_true_eq, reduceCtorEq, decide_True,
            decide_False, if_true, if_false]
          simpa using ih.cons x
      | cr =>
          simp only [List.filter_cons, hx, decide_eq_true_eq, reduceCtorEq, decide_True,
            decide_False, if_true, if_false]
          rw [List.append_assoc, List.cons_append]
          refine List.Perm.trans ?_ (ih.cons x)
          refine List.Perm.trans (List.perm_middle) ?_
          rw [List.append_assoc]
      | gj =>
          simp only [List.filter_cons, hx, decide_eq_true_eq, reduceCtorEq, decide_True,
            decide_False, if_true, if_false]
          refine List.Perm.trans ?_ (ih.cons x)
          exact List.perm_middle

/-! ### Shape of surviving rows (claim C1) -/

theorem mem_clean_rows (t : Table) (r : Row) (h : r ∈ (clean_reversals t).rows) :
    r ∈ t.rows := by
  revert h
  simp only [clean_reversals]
  split
  · exact fun h => h
  · exact fun h => List.mem_of_mem_filter h

theorem mem_idOverwrite (d i : Nat) (rows : List Row) (r' : Row)
    (h : r' ∈ idOverwrite d i rows) : ∃ r ∈ rows, r'.length = r.length := by
  revert h
  simp only [idOverwrite]
  split
  · exact fun h => ⟨r', h, rfl⟩
  · intro h
    rcases List.mem_map.mp h with ⟨⟨a, b⟩, hz, heq⟩
    refine ⟨a, (List.of_mem_zip hz).1, ?_⟩
    cases b with
    | some v => simp [← heq]
    | none => simp [← heq]

theorem mem_normalizeIds (i : Nat) (rows : List Row) (r' : Row)
    (h : r' ∈ normalizeIds i rows) : ∃ r ∈ rows, r'.length = r.length := by
  rcases List.mem_filterMap.mp h with ⟨⟨a, b⟩, hz, hab⟩
  cases b with
  | none => simp at hab
  | some v =>
      refine ⟨a, (List.of_mem_zip hz).1, ?_⟩
      simp only [Option.map_some'] at hab
      cases hab
      simp

theorem mem_survivors_shape (t : Table) (c : Ctx) (r : Row) (hr : r ∈ survivors t c)
    (hRect : Rect t) : ∃ r0 : Row, r = coerceRow c.debC c.creC r0 ∧
      r0.length = t.cols.length := by
  have h1 : r ∈ coerceNum c.debC c.creC
      (normalizeIds c.idC (idOverwrite c.dateC c.idC (clean_reversals t).rows)) :=
    List.mem_of_mem_filter hr
  rcases List.mem_map.mp h1 with ⟨r0, hr0, rfl⟩
  rcases mem_normalizeIds _ _ _ hr0 with ⟨r1, hr1, hlen1⟩
  rcases mem_idOverwrite _ _ _ _ hr1 with ⟨r2, hr2, hlen2⟩
  refine ⟨r0, rfl, ?_⟩
  rw [hlen1, hlen2]
  exact hRect r2 (mem_clean_rows t r2 hr2)

theorem set_num_not_blank (r : Row) (i : ℕ) (x : Int) (h : i < r.length) :
    isBlankRow (r.set i (Cell.num x)) = false := by
  apply Bool.eq_false_iff.mpr
  intro hall
  have hlen : i < (r.set i (Cell.num x)).length := by simpa using h
  have hmem : (r.set i (Cell.num x)).get ⟨i, hlen⟩ ∈ r.set i (Cell.num x) :=
    List.get_mem _ _ _
  have hval : (r.set i (Cell.num x)).get ⟨i, hlen⟩ = Cell.num x := by
    simp [List.get_eq_getElem, List.getElem_set_self]
  rw [hval] at hmem
  have hc := (List.all_eq_true.mp hall) _ hmem
  simp at hc

theorem survivors_not_blank (t : Table) (c : Ctx) (hRect : Rect t)
    (hcre : c.creC < t.cols.length) :
    ∀ r ∈ survivors t c, isBlankRow r = false := by
  intro r hr
  rcases mem_survivors_shape t c r hr hRect with ⟨r0, rfl, hlen⟩
  unfold coerceRow
  apply set_num_not_blank
  simpa [hlen] using hcre

/-! ### Column resolution facts -/

theorem lastColMatch_lt (cols : List String) (key : String) (i : ℕ)
    (h : lastColMatch cols key = some i) : i < cols.length := by
  unfold lastColMatch at h
  have hmem : i ∈ colMatches cols key := by
    rcases List.mem_getLast?_eq_getLast (show i ∈ (colMatches cols key).getLast? from h)
      with ⟨hne, hi⟩
    rw [hi]
    exact List.getLast_mem hne
  have := (List.mem_filter.mp hmem).1
  exact List.mem_range.mp this

theorem getColumnName_lt (cols : List String) :
    ∀ (cands : List String) (i : ℕ), getColumnName cols cands = some i → i < cols.length := by
  intro cands
  induction cands with
  | nil => intro i h; cases h
  | cons cand cs ih =>
      intro i h
      unfold getColumnName at h
      cases hm : lastColMatch cols (lowerS cand) with
      | some j =>
          rw [hm] at h
          cases h
          exact lastColMatch_lt cols (lowerS cand) i hm
      | none =>
          rw [hm] at h
          exact ih i h

theorem mkCtx_ok (cols : List String) (c : Ctx) (h : mkCtx cols = .ok c) :
    getColumnName cols idCands = some c.idC ∧ getColumnName cols accCands = some c.accC ∧
    getColumnName cols debCands = some c.debC ∧ getColumnName cols creCands = some c.creC ∧
    getColumnName cols ["date"] = some c.dateC := by
  unfold mkCtx at h
  cases h1 : getColumnName cols idCands <;> rw [h1] at h
  case none => cases h
  case some i =>
    cases h2 : getColumnName cols accCands <;> rw [h2] at h
    case none => cases h
    case some a =>
      cases h3 : getColumnName cols debCands <;> rw [h3] at h
      case none => cases h
      case some d =>
        cases h4 : getColumnName cols creCands <;> rw [h4] at h
        case none => cases h
        case some cr =>
          cases h5 : getColumnName cols ["date"] <;> rw [h5] at h
          case none => cases h
          case some dt =>
            cases h
            exact ⟨rfl, rfl, rfl, rfl, rfl⟩

/-! ### The sorted-and-spaced bucket (claims C1, C5) -/

theorem sortAndSpace_eq (pdate : String → Option Nat) (c : Ctx) (n : ℕ)
    (bucket : List Row) (hne : bucket ≠ []) :
    sortAndSpace pdate c n bucket
      = withSpacers (blankRow n) (bookGroups pdate c bucket) := by
  unfold sortAndSpace
  rw [if_neg (by simpa [List.isEmpty_iff] using hne)]
  exact flatten_dropLast_eq_withSpacers _ _

theorem removeBlanks_sortAndSpace (pdate : String → Option Nat) (c : Ctx) (n : ℕ)
    (bucket : List Row) (hrows : ∀ r ∈ bucket, isBlankRow r = false) :
    (removeBlanks (sortAndSpace pdate c n bucket)).Perm bucket := by
  by_cases hne : bucket = []
  · subst hne
    simp [sortAndSpace, removeBlanks]
  · rw [sortAndSpace_eq pdate c n bucket hne]
    have hfacts := bookGroups_facts pdate c bucket
    have hgs : ∀ g ∈ bookGroups pdate c bucket, ∀ r ∈ g, isBlankRow r = false := by
      intro g hg r hrg
      apply hrows
      exact (hfacts.1.mem_iff).mp (List.mem_flatten.mpr ⟨g, hg, hrg⟩)
    rw [removeBlanks_withSpacers _ (blankRow_isBlank n) _ hgs]
    exact hfacts.1

theorem segregate_ok (pdate : String → Option Nat) (t : Table) (c : Ctx) (bks : Books)
    (h : mkCtx (clean_reversals t).cols = .ok c) (hseg : segregate pdate t = .ok bks) :
    bks = ⟨sortAndSpace pdate c (clean_reversals t).cols.length
             ((survivors t c).filter (fun r => decide (bookOf c (survivors t c) r = Book.cd))),
           sortAndSpace pdate c (clean_reversals t).cols.length
             ((survivors t c).filter (fun r => decide (bookOf c (survivors t c) r = Book.cr))),
           sortAndSpace pdate c (clean_reversals t).cols.length
             ((survivors t c).filter (fun r => decide (bookOf c (survivors t c) r = Book.gj)))⟩ := by
  unfold segregate at hseg
  rw [h] at hseg
  simp only [Except.map] at hseg
  cases hseg
  rfl

set_option maxHeartbeats 1000000 in
/-- Claim C1 test: for every table on which classification succeeds, the
three output buckets with their spacer rows removed are, together, a
permutation of exactly the surviving rows (those not dropped by the
reversal filter, the blank-identifier drop or the junk-row cleanup) — no
surviving row is lost or duplicated across buckets. -/
theorem claim_C1 (pdate : String → Option Nat) (t : Table) (c : Ctx) (bks : Books)
    (hRect : Rect t) (h : mkCtx (clean_reversals t).cols = .ok c)
    (hseg : segregate pdate t = .ok bks) :
    (removeBlanks bks.cd ++ removeBlanks bks.cr ++ removeBlanks bks.gj).Perm
      (survivors t c) := by
  have hfields := mkCtx_ok _ _ h
  have hcre : c.creC < t.cols.length := by
    have := getColumnName_lt (clean_reversals t).cols creCands c.creC hfields.2.2.2.1
    rwa [clean_reversals_cols] at this
  have hnb := survivors_not_blank t c hRect hcre
  have hbks := segregate_ok pdate t c bks h hseg
  subst hbks
  have h1 := removeBlanks_sortAndSpace pdate c (clean_reversals t).cols.length
    ((survivors t c).filter (fun r => decide (bookOf c (survivors t c) r = Book.cd)))
    (fun r hr => hnb r (List.mem_of_mem_filter hr))
  have h2 := removeBlanks_sortAndSpace pdate c (clean_reversals t).cols.length
    ((survivors t c).filter (fun r => decide (bookOf c (survivors t c) r = Book.cr)))
    (fun r hr => hnb r (List.mem_of_mem_filter hr))
  have h3 := removeBlanks_sortAndSpace pdate c (clean_reversals t).cols.length
    ((survivors t c).filter (fun r => decide (bookOf c (survivors t c) r = Book.gj)))
    (fun r hr => hnb r (List.mem_of_mem_filter hr))
  exact ((h1.append h2).append h3).trans
    (filter_books_perm (bookOf c (survivors t c)) (survivors t c))

theorem claim_C1_witness :
    Rect tC3tbl ∧ mkCtx (clean_reversals tC3tbl).cols = .ok stdCtx ∧
    segregate pdNone tC3tbl = .ok bksC3 ∧
    (removeBlanks bksC3.cd ++ removeBlanks bksC3.cr ++ removeBlanks bksC3.gj).Perm
      (survivors tC3tbl stdCtx) :=
  ⟨by decide, rfl, by decide,
    claim_C1 pdNone tC3tbl stdCtx bksC3 (by decide) rfl (by decide)⟩

set_option maxHeartbeats 1000000 in
/-- Claim C5 test: when classification succeeds (which requires the date
column), every output bucket is the sort-and-space pass applied to that
bucket's own rows (per-bucket isolation), and for every nonempty bucket
the pass equals the identifier groups joined with exactly one fully-blank
spacer between consecutive groups and none after the last, where the rows
of the joined groups are sorted by (group minimum parsed date with NaT
last, identifier, rank) and are a permutation of the bucket; groups are
nonempty, internally share one identifier, and adjacent groups have
different identifiers. -/
theorem claim_C5 (pdate : String → Option Nat) (t : Table) (c : Ctx) (bks : Books)
    (h : mkCtx (clean_reversals t).cols = .ok c) (hseg : segregate pdate t = .ok bks) :
    (bks.cd = sortAndSpace pdate c t.cols.length
        ((survivors t c).filter (fun r => decide (bookOf c (survivors t c) r = Book.cd))) ∧
     bks.cr = sortAndSpace pdate c t.cols.length
        ((survivors t c).filter (fun r => decide (bookOf c (survivors t c) r = Book.cr))) ∧
     bks.gj = sortAndSpace pdate c t.cols.length
        ((survivors t c).filter (fun r => decide (bookOf c (survivors t c) r = Book.gj)))) ∧
    ∀ bucket : List Row, bucket ≠ [] →
      sortAndSpace pdate c t.cols.length bucket
          = withSpacers (blankRow t.cols.length) (bookGroups pdate c bucket) ∧
      List.Sorted (keyLE pdate c bucket) (bookGroups pdate c bucket).flatten ∧
      ((bookGroups pdate c bucket).flatten).Perm bucket ∧
      (∀ g ∈ bookGroups pdate c bucket, g ≠ [] ∧
        ∀ x ∈ g, ∀ y ∈ g, idOf c.idC x = idOf c.idC y) ∧
      List.Chain' (fun g1 g2 => ∀ x ∈ g1, ∀ y ∈ g2, idOf c.idC x ≠ idOf c.idC y)
        (bookGroups pdate c bucket) := by
  have hcols := clean_reversals_cols t
  have hbks := segregate_ok pdate t c bks h hseg
  constructor
  · rw [hbks]
    rw [hcols]
    exact ⟨rfl, rfl, rfl⟩
  · intro bucket hne
    have hfacts := bookGroups_facts pdate c bucket
    exact ⟨sortAndSpace_eq pdate c t.cols.length bucket hne, hfacts.2.1, hfacts.1,
      hfacts.2.2.1, hfacts.2.2.2.chain'⟩

theorem claim_C5_witness :
    mkCtx (clean_reversals tC5tbl).cols = .ok stdCtx ∧
    segregate pdSmall tC5tbl = .ok bksC5 ∧
    bksC5.gj = sortAndSpace pdSmall stdCtx tC5tbl.cols.length
      ((survivors tC5tbl stdCtx).filter
        (fun r => decide (bookOf stdCtx (survivors tC5tbl stdCtx) r = Book.gj))) :=
  ⟨rfl, by decide, (claim_C5 pdSmall tC5tbl stdCtx bksC5 rfl (by decide)).1.2.2⟩
